import Mathlib

/-!
Verification of the quality-parameter binary search in `find_crf.py`.

The core of the repository is `find_optimal_quality_param` (find_crf.py,
lines 246-369): a bounded binary search over an integer quality parameter
(QP/CRF), driven by an external probe (encode a sample at the candidate
parameter, then measure a perceptual VMAF score against the reference).
This file gives a shallow embedding of that loop and of the derived
size-estimate and frame-filename logic, and proves the spec claims about
them.

Modelling conventions:
  - Python floats (VMAF scores, the target, bitrates, sizes) are modelled
    as rationals.
  - The external probe (encode + VMAF measurement, lines 283-285) is an
    abstract function `Int → Option ℚ`; `none` models the branch where
    `run_vmaf` returns `None` (score unparsable / measurement failure).
  - Python integer floor division `//` is `Int` division `/`, which agrees
    with floor division for the positive literal divisor 2.
  - The loop state is the triple of the Python locals `low_param`,
    `high_param`, `best_param`; one loop iteration (lines 271-366, with the
    effectful printing and frame saving dropped) is `stepSearch`, returning
    either the next state or, when the loop breaks, the returned best
    parameter.
-/

namespace FindCrf

/-- Loop state of the binary search: the Python locals `low_param`,
`high_param` (current inclusive domain bounds) and `best_param` (best
parameter found so far, initialised to the sentinel `high_param`). -/
structure SearchState where
  low_param : Int
  high_param : Int
  best_param : Int
deriving Repr, DecidableEq

/-- Candidate computation, find_crf.py lines 272-276: midpoint
`(low_param + high_param) // 2`, overridden to `low_param` when the domain
has one element or two adjacent elements. -/
def current_param (low_param high_param : Int) : Int :=
  if low_param = high_param then low_param
  else if low_param + 1 = high_param then low_param
  else (low_param + high_param) / 2

/-- Best-parameter update of find_crf.py lines 356-357: replace the best
parameter by the candidate when the candidate is lower (higher quality) or
when the best still sits at the current `high_param`. -/
def updated_best (cand best_param high_param : Int) : Int :=
  if cand < best_param ∨ best_param = high_param then cand else best_param

/-- One iteration of the search loop, find_crf.py lines 271-366.
`Sum.inl` is the state at the next iteration; `Sum.inr b` means the loop
breaks and the search returns `b`. The probe abstracts the
encode-and-measure step; `none` is a failed VMAF measurement (line 347).
The candidate `current_param s.low_param s.high_param` is the Python local
`current_param`, written out at each use. -/
def stepSearch (target_vmaf : ℚ) (probe : Int → Option ℚ) (s : SearchState) :
    SearchState ⊕ Int :=
  match probe (current_param s.low_param s.high_param) with
  | none =>
      -- lines 347-353: failed measurement; advance low_param past the candidate
      if current_param s.low_param s.high_param + 1 > s.high_param then
        Sum.inr s.best_param
      else
        Sum.inl ⟨current_param s.low_param s.high_param + 1, s.high_param, s.best_param⟩
  | some score =>
      if score ≥ target_vmaf then
        -- lines 355-359: target met; maybe record best, then search higher params
        if current_param s.low_param s.high_param + 1 > s.high_param then
          Sum.inr (updated_best (current_param s.low_param s.high_param)
            s.best_param s.high_param)
        else
          Sum.inl ⟨current_param s.low_param s.high_param + 1, s.high_param,
            updated_best (current_param s.low_param s.high_param)
              s.best_param s.high_param⟩
      else
        -- lines 360-362: target missed; search lower (higher-quality) params
        if s.low_param > current_param s.low_param s.high_param - 1 then
          Sum.inr s.best_param
        else
          Sum.inl ⟨s.low_param, current_param s.low_param s.high_param - 1, s.best_param⟩

/-- Fueled search loop (`for i in range(max_iterations)`), also counting the
probes performed: returns `(best_param, probes)`. -/
def runSearchAux (target_vmaf : ℚ) (probe : Int → Option ℚ) :
    Nat → SearchState → Nat → Int × Nat
  | 0, s, probes => (s.best_param, probes)
  | n + 1, s, probes =>
      match stepSearch target_vmaf probe s with
      | Sum.inl s' => runSearchAux target_vmaf probe n s' (probes + 1)
      | Sum.inr b => (b, probes + 1)

/-- The search of find_crf.py lines 263-369 with the domain bounds already
resolved: `best_param` starts at the sentinel `max_quality_param` (line 263)
and the loop runs for at most `max_iterations` iterations. Returns the best
parameter found. -/
def find_optimal_quality_param (target_vmaf : ℚ) (probe : Int → Option ℚ)
    (min_quality_param max_quality_param : Int) (max_iterations : Nat) : Int :=
  (runSearchAux target_vmaf probe max_iterations
    ⟨min_quality_param, max_quality_param, max_quality_param⟩ 0).1

/-- Number of probe invocations the same search performs. -/
def probes_used (target_vmaf : ℚ) (probe : Int → Option ℚ)
    (min_quality_param max_quality_param : Int) (max_iterations : Nat) : Nat :=
  (runSearchAux target_vmaf probe max_iterations
    ⟨min_quality_param, max_quality_param, max_quality_param⟩ 0).2

/-- State of the search after `k` completed loop iterations, or `none` if
the loop broke strictly before completing `k` iterations. -/
def runStates (target_vmaf : ℚ) (probe : Int → Option ℚ) :
    Nat → SearchState → Option SearchState
  | 0, s => some s
  | n + 1, s =>
      match stepSearch target_vmaf probe s with
      | Sum.inl s' => runStates target_vmaf probe n s'
      | Sum.inr _ => none

/-- Candidates probed during the first `k` iterations (the breaking
iteration still probes its candidate before the loop ends). -/
def probedCands (target_vmaf : ℚ) (probe : Int → Option ℚ) :
    Nat → SearchState → List Int
  | 0, _ => []
  | n + 1, s =>
      match stepSearch target_vmaf probe s with
      | Sum.inl s' =>
          current_param s.low_param s.high_param :: probedCands target_vmaf probe n s'
      | Sum.inr _ => [current_param s.low_param s.high_param]

/-- Whether probing candidate `c` yields a score meeting the target. -/
def probeMeetsTarget (target_vmaf : ℚ) (probe : Int → Option ℚ) (c : Int) : Bool :=
  match probe c with
  | some score => decide (target_vmaf ≤ score)
  | none => false

/-- Monotone probe hypothesis of the spec: the measured score never
increases as the quality parameter increases. -/
def scoreMonotone (probe : Int → Option ℚ) : Prop :=
  ∀ a b sa sb, a ≤ b → probe a = some sa → probe b = some sb → sb ≤ sa

/-- Size estimator, find_crf.py line 295: Mbps times seconds over 8 bits
per byte gives megabytes. -/
def estimated_full_video_size_mb (bitrate_mbps duration : ℚ) : ℚ :=
  bitrate_mbps * duration / 8

/-- Percent-of-original estimator, find_crf.py lines 297-298: defined only
when the original size is positive. -/
def percentage_of_original (est_mb original_file_size_mb : ℚ) : Option ℚ :=
  if original_file_size_mb > 0 then some (est_mb / original_file_size_mb * 100)
  else none

/-- Deterministic stub probe of the end-to-end scenario: score exactly
`100 - candidate`, every probe succeeding. -/
def stubProbe (c : Int) : Option ℚ :=
  some (Rat.ofInt (100 - c))

/- Basic lemmas about the loop. -/

/-- Midpoint bounds: for a nonempty domain the candidate lies inside it. -/
theorem current_param_bounds {lo hi : Int} (h : lo ≤ hi) :
    lo ≤ current_param lo hi ∧ current_param lo hi ≤ hi := by
  unfold current_param
  split_ifs <;> omega

/-- Rewriting `stepSearch` on the absent-score branch. -/
theorem stepSearch_absent (target_vmaf : ℚ) (probe : Int → Option ℚ)
    (s : SearchState)
    (habs : probe (current_param s.low_param s.high_param) = none) :
    stepSearch target_vmaf probe s =
      (if current_param s.low_param s.high_param + 1 > s.high_param
       then Sum.inr s.best_param
       else Sum.inl ⟨current_param s.low_param s.high_param + 1,
                     s.high_param, s.best_param⟩) := by
  unfold stepSearch
  rw [habs]

/-- Rewriting `stepSearch` on the target-met branch. -/
theorem stepSearch_met (target_vmaf : ℚ) (probe : Int → Option ℚ)
    (s : SearchState) (score : ℚ)
    (hsc : probe (current_param s.low_param s.high_param) = some score)
    (hge : score ≥ target_vmaf) :
    stepSearch target_vmaf probe s =
      (if current_param s.low_param s.high_param + 1 > s.high_param
       then Sum.inr (updated_best (current_param s.low_param s.high_param)
         s.best_param s.high_param)
       else Sum.inl ⟨current_param s.low_param s.high_param + 1, s.high_param,
         updated_best (current_param s.low_param s.high_param)
           s.best_param s.high_param⟩) := by
  unfold stepSearch
  simp only [hsc]
  rw [if_pos hge]

/-- Rewriting `stepSearch` on the target-missed branch. -/
theorem stepSearch_missed (target_vmaf : ℚ) (probe : Int → Option ℚ)
    (s : SearchState) (score : ℚ)
    (hsc : probe (current_param s.low_param s.high_param) = some score)
    (hlt : ¬ score ≥ target_vmaf) :
    stepSearch target_vmaf probe s =
      (if s.low_param > current_param s.low_param s.high_param - 1
       then Sum.inr s.best_param
       else Sum.inl ⟨s.low_param, current_param s.low_param s.high_param - 1,
                     s.best_param⟩) := by
  unfold stepSearch
  simp only [hsc]
  rw [if_neg hlt]

/-- When every probe fails, the loop never changes `best_param`. -/
theorem runSearchAux_all_fail (target_vmaf : ℚ) (probe : Int → Option ℚ)
    (hfail : ∀ c, probe c = none) :
    ∀ fuel s probes, (runSearchAux target_vmaf probe fuel s probes).1 = s.best_param := by
  intro fuel
  induction fuel with
  | zero => intro s probes; rfl
  | succ n ih =>
      intro s probes
      rw [runSearchAux, stepSearch_absent target_vmaf probe s (hfail _)]
      split_ifs
      · rfl
      · exact ih _ _

/-- The probe counter grows by at most the fuel. -/
theorem runSearchAux_probes_le (target_vmaf : ℚ) (probe : Int → Option ℚ) :
    ∀ fuel s probes, (runSearchAux target_vmaf probe fuel s probes).2 ≤ probes + fuel := by
  intro fuel
  induction fuel with
  | zero => intro s probes; simp [runSearchAux]
  | succ n ih =>
      intro s probes
      rw [runSearchAux]
      cases hstep : stepSearch target_vmaf probe s with
      | inl s' => exact le_trans (ih _ _) (by omega)
      | inr b =>
          show probes + 1 ≤ probes + (n + 1)
          omega

/-- The result of the loop stays inside `[lo, hi]` whenever the entry state
is well formed with respect to those outer bounds. -/
theorem runSearchAux_result_bounds (target_vmaf : ℚ) (probe : Int → Option ℚ)
    (lo hi : Int) :
    ∀ fuel s probes, lo ≤ s.low_param → s.low_param ≤ s.high_param →
      s.high_param ≤ hi → lo ≤ s.best_param → s.best_param ≤ hi →
      lo ≤ (runSearchAux target_vmaf probe fuel s probes).1 ∧
        (runSearchAux target_vmaf probe fuel s probes).1 ≤ hi := by
  intro fuel
  induction fuel with
  | zero =>
      intro s probes h1 h2 h3 h4 h5
      exact ⟨h4, h5⟩
  | succ n ih =>
      intro s probes h1 h2 h3 h4 h5
      have hc := current_param_bounds h2
      rw [runSearchAux]
      cases hp : probe (current_param s.low_param s.high_param) with
      | none =>
          rw [stepSearch_absent target_vmaf probe s hp]
          by_cases hcond : current_param s.low_param s.high_param + 1 > s.high_param
          · rw [if_pos hcond]
            exact ⟨h4, h5⟩
          · rw [if_neg hcond]
            exact ih _ _
              (show lo ≤ current_param s.low_param s.high_param + 1 by omega)
              (show current_param s.low_param s.high_param + 1 ≤ s.high_param by omega)
              h3 h4 h5
      | some score =>
          by_cases hge : score ≥ target_vmaf
          · rw [stepSearch_met target_vmaf probe s score hp hge]
            have hb1 : lo ≤ updated_best (current_param s.low_param s.high_param)
                s.best_param s.high_param := by
              unfold updated_best; split_ifs <;> omega
            have hb2 : updated_best (current_param s.low_param s.high_param)
                s.best_param s.high_param ≤ hi := by
              unfold updated_best; split_ifs <;> omega
            by_cases hcond : current_param s.low_param s.high_param + 1 > s.high_param
            · rw [if_pos hcond]
              exact ⟨hb1, hb2⟩
            · rw [if_neg hcond]
              exact ih _ _
                (show lo ≤ current_param s.low_param s.high_param + 1 by omega)
                (show current_param s.low_param s.high_param + 1 ≤ s.high_param by omega)
                h3 hb1 hb2
          · rw [stepSearch_missed target_vmaf probe s score hp hge]
            by_cases hcond : s.low_param > current_param s.low_param s.high_param - 1
            · rw [if_pos hcond]
              exact ⟨h4, h5⟩
            · rw [if_neg hcond]
              exact ih _ _ h1
                (show s.low_param ≤ current_param s.low_param s.high_param - 1 by omega)
                (show current_param s.low_param s.high_param - 1 ≤ hi by omega)
                h4 h5

/- Claims -/

/-- C1: on domain `[0, 51]` with target `95` and the deterministic stub
probe returning exactly `100 - candidate`, the cost-minimizing search
(which continues past the first success toward cheaper parameters) returns
parameter `5`, probing `5 ≤ 6` times; the same result holds with the
default iteration cap `10`. -/
theorem claim_c1_end_to_end :
    find_optimal_quality_param 95 stubProbe 0 51 6 = 5 ∧
    probes_used 95 stubProbe 0 51 6 = 5 ∧
    probes_used 95 stubProbe 0 51 6 ≤ 6 ∧
    find_optimal_quality_param 95 stubProbe 0 51 10 = 5 := by
  refine ⟨by decide, by decide, by decide, by decide⟩

/-- C2: when the domain has collapsed to a single value `a` or to the two
adjacent values `{a, a+1}`, the candidate tried next is `a` (the lower
parameter, i.e. the higher-quality one), never `a+1`. -/
theorem claim_c2_tie_break (a : Int) :
    current_param a a = a ∧ current_param a (a + 1) = a := by
  constructor
  · simp [current_param]
  · unfold current_param
    rw [if_neg (by omega), if_pos rfl]

/-- C3: if every probe fails, the search returns the initial domain maximum
(the sentinel `best_param` initial value) as a normal result. -/
theorem claim_c3_all_fail_sentinel (target_vmaf : ℚ) (probe : Int → Option ℚ)
    (lo hi : Int) (fuel : Nat) (hfail : ∀ c, probe c = none) :
    find_optimal_quality_param target_vmaf probe lo hi fuel = hi := by
  unfold find_optimal_quality_param
  rw [runSearchAux_all_fail target_vmaf probe hfail]

/-- C3 witness: concrete all-failing search over `[0, 51]` returns `51`. -/
theorem claim_c3_witness :
    find_optimal_quality_param 95 (fun _ => none) 0 51 10 = 51 :=
  claim_c3_all_fail_sentinel 95 (fun _ => none) 0 51 10 (fun _ => rfl)

/-- C4: in an iteration whose probe score is absent, the loop advances
`low_param` to `candidate + 1` and keeps `best_param`; if that advance
empties the domain the loop stops, returning the current `best_param`,
otherwise it continues from the advanced state. -/
theorem claim_c4_absent_branch (target_vmaf : ℚ) (probe : Int → Option ℚ)
    (s : SearchState)
    (habs : probe (current_param s.low_param s.high_param) = none) :
    stepSearch target_vmaf probe s =
      (if s.high_param < current_param s.low_param s.high_param + 1
       then Sum.inr s.best_param
       else Sum.inl ⟨current_param s.low_param s.high_param + 1,
                     s.high_param, s.best_param⟩) :=
  stepSearch_absent target_vmaf probe s habs

/-- C4 witness: concrete absent-score step from state `(0, 3, 3)`. -/
theorem claim_c4_witness :
    stepSearch 95 (fun _ => none) ⟨0, 3, 3⟩ =
      (if (3 : Int) < current_param 0 3 + 1
       then Sum.inr (3 : Int)
       else Sum.inl ⟨current_param 0 3 + 1, 3, 3⟩) :=
  claim_c4_absent_branch 95 (fun _ => none) ⟨0, 3, 3⟩ rfl

/-- C5: on an initial domain with `min = max` and at least one allowed
iteration, the search probes exactly once and returns that single
parameter, whatever the probe outcome (absent, meeting, or missing the
target). -/
theorem claim_c5_singleton_domain (target_vmaf : ℚ) (probe : Int → Option ℚ)
    (a : Int) (fuel : Nat) (h : 1 ≤ fuel) :
    find_optimal_quality_param target_vmaf probe a a fuel = a ∧
    probes_used target_vmaf probe a a fuel = 1 := by
  obtain ⟨n, rfl⟩ : ∃ n, fuel = n + 1 := ⟨fuel - 1, by omega⟩
  have hcand : current_param a a = a := by simp [current_param]
  unfold find_optimal_quality_param probes_used
  rw [runSearchAux]
  cases hp : probe a with
  | none =>
      have hp' : probe (current_param a a) = none := by rw [hcand]; exact hp
      rw [stepSearch_absent target_vmaf probe ⟨a, a, a⟩ hp']
      simp only [hcand]
      rw [if_pos (show a + 1 > a by omega)]
      exact ⟨rfl, rfl⟩
  | some score =>
      have hp' : probe (current_param a a) = some score := by rw [hcand]; exact hp
      by_cases hge : score ≥ target_vmaf
      · rw [stepSearch_met target_vmaf probe ⟨a, a, a⟩ score hp' hge]
        have hbest : updated_best a a a = a := by
          unfold updated_best
          split_ifs <;> omega
        simp only [hcand, hbest]
        rw [if_pos (show a + 1 > a by omega)]
        exact ⟨rfl, rfl⟩
      · rw [stepSearch_missed target_vmaf probe ⟨a, a, a⟩ score hp' hge]
        simp only [hcand]
        rw [if_pos (show a > a - 1 by omega)]
        exact ⟨rfl, rfl⟩

/-- C5 witness: singleton domain `{7}` with an all-failing probe and one
allowed iteration returns `7` after exactly one probe. -/
theorem claim_c5_witness :
    find_optimal_quality_param 95 (fun _ => none) 7 7 1 = 7 ∧
    probes_used 95 (fun _ => none) 7 7 1 = 1 :=
  claim_c5_singleton_domain 95 (fun _ => none) 7 1 (by decide)

/-- C6: for a nonempty initial domain and a probe whose score is monotone
non-increasing in the parameter, the returned parameter lies inside the
initial domain. -/
theorem claim_c6_result_in_domain (target_vmaf : ℚ) (probe : Int → Option ℚ)
    (lo hi : Int) (fuel : Nat) (hdom : lo ≤ hi) (_hmono : scoreMonotone probe) :
    lo ≤ find_optimal_quality_param target_vmaf probe lo hi fuel ∧
    find_optimal_quality_param target_vmaf probe lo hi fuel ≤ hi := by
  unfold find_optimal_quality_param
  exact runSearchAux_result_bounds target_vmaf probe lo hi fuel
    ⟨lo, hi, hi⟩ 0 le_rfl hdom le_rfl hdom le_rfl

/-- C6 witness: the always-failing probe is vacuously monotone; on
`[0, 51]` the result stays inside the domain. -/
theorem claim_c6_witness :
    0 ≤ find_optimal_quality_param 95 (fun _ => none) 0 51 10 ∧
    find_optimal_quality_param 95 (fun _ => none) 0 51 10 ≤ 51 :=
  claim_c6_result_in_domain 95 (fun _ => none) 0 51 10 (by decide)
    (fun _ _ _ _ _ ha _ => Option.noConfusion ha)

/-- C7: the probe count never exceeds `max_iterations`, and with
`max_iterations = 0` the search probes nothing and returns the sentinel
(initial domain maximum) as a normal value. -/
theorem claim_c7_iteration_cap (target_vmaf : ℚ) (probe : Int → Option ℚ)
    (lo hi : Int) (fuel : Nat) :
    probes_used target_vmaf probe lo hi fuel ≤ fuel ∧
    probes_used target_vmaf probe lo hi 0 = 0 ∧
    find_optimal_quality_param target_vmaf probe lo hi 0 = hi := by
  refine ⟨?_, rfl, rfl⟩
  have := runSearchAux_probes_le target_vmaf probe fuel ⟨lo, hi, hi⟩ 0
  unfold probes_used
  omega

/-- C8: the size estimator is the pure function
`bitrate * duration / 8`, percent-of-original is
`estimate / original * 100` whenever the original size is positive, and on
the spec's round-trip instance `(8, 100, 50)` it yields `100` MB and
`200` percent. -/
theorem claim_c8_size_estimate :
    estimated_full_video_size_mb 8 100 = 100 ∧
    percentage_of_original (estimated_full_video_size_mb 8 100) 50 = some 200 ∧
    (∀ b d, estimated_full_video_size_mb b d = b * d / 8) ∧
    (∀ e o, 0 < o → percentage_of_original e o = some (e / o * 100)) := by
  have h1 : estimated_full_video_size_mb 8 100 = 100 := by
    unfold estimated_full_video_size_mb
    norm_num
  refine ⟨h1, ?_, fun b d => rfl, fun e o ho => ?_⟩
  · rw [h1]
    unfold percentage_of_original
    rw [if_pos (show (50 : ℚ) > 0 by norm_num)]
    norm_num
  · unfold percentage_of_original
    rw [if_pos ho]

/-- C8 witness: the positive-original-size branch at `(100, 50)`. -/
theorem claim_c8_witness :
    (0 : ℚ) < 50 ∧ percentage_of_original 100 50 = some (100 / 50 * 100) :=
  ⟨by decide, claim_c8_size_estimate.2.2.2 100 50 (by decide)⟩

/- Trace lemmas for the best-parameter invariant. -/

/-- Unfolding the trace from the far end: the state after `k + 1` iterations
is the state after `k` iterations advanced by one surviving step. -/
theorem runStates_succ (target_vmaf : ℚ) (probe : Int → Option ℚ) :
    ∀ (k : Nat) (s : SearchState),
      runStates target_vmaf probe (k + 1) s =
        match runStates target_vmaf probe k s with
        | some u =>
            match stepSearch target_vmaf probe u with
            | Sum.inl v => some v
            | Sum.inr _ => none
        | none => none := by
  intro k
  induction k with
  | zero =>
      intro s
      simp only [runStates]
  | succ n ih =>
      intro s
      cases hstep : stepSearch target_vmaf probe s with
      | inl s' =>
          have hL : runStates target_vmaf probe (n + 1 + 1) s =
              runStates target_vmaf probe (n + 1) s' := by
            simp only [runStates, hstep]
          have hR : runStates target_vmaf probe (n + 1) s =
              runStates target_vmaf probe n s' := by
            simp only [runStates, hstep]
          rw [hL, ih s', hR]
      | inr b =>
          have hL : runStates target_vmaf probe (n + 1 + 1) s = none := by
            simp only [runStates, hstep]
          have hR : runStates target_vmaf probe (n + 1) s = none := by
            simp only [runStates, hstep]
          rw [hL, hR]

/-- Unfolding the probed-candidate list from the far end: iteration `k + 1`
probes the candidate of the state reached after `k` iterations, when the
loop is still running. -/
theorem probedCands_succ (target_vmaf : ℚ) (probe : Int → Option ℚ) :
    ∀ (k : Nat) (s : SearchState),
      probedCands target_vmaf probe (k + 1) s =
        match runStates target_vmaf probe k s with
        | some u => probedCands target_vmaf probe k s
            ++ [current_param u.low_param u.high_param]
        | none => probedCands target_vmaf probe k s := by
  intro k
  induction k with
  | zero =>
      intro s
      simp only [probedCands, runStates]
      cases stepSearch target_vmaf probe s <;> simp [probedCands]
  | succ n ih =>
      intro s
      cases hstep : stepSearch target_vmaf probe s with
      | inl s' =>
          have hL : probedCands target_vmaf probe (n + 1 + 1) s =
              current_param s.low_param s.high_param ::
                probedCands target_vmaf probe (n + 1) s' := by
            simp only [probedCands, hstep]
          have hR : runStates target_vmaf probe (n + 1) s =
              runStates target_vmaf probe n s' := by
            simp only [runStates, hstep]
          have hP : probedCands target_vmaf probe (n + 1) s =
              current_param s.low_param s.high_param ::
                probedCands target_vmaf probe n s' := by
            simp only [probedCands, hstep]
          rw [hL, ih s', hR, hP]
          cases runStates target_vmaf probe n s' <;> simp
      | inr b =>
          have hL : probedCands target_vmaf probe (n + 1 + 1) s =
              [current_param s.low_param s.high_param] := by
            simp only [probedCands, hstep]
          have hR : runStates target_vmaf probe (n + 1) s = none := by
            simp only [runStates, hstep]
          have hP : probedCands target_vmaf probe (n + 1) s =
              [current_param s.low_param s.high_param] := by
            simp only [probedCands, hstep]
          rw [hL, hR, hP]

/-- Prefix decomposition of the probed-candidate list along the iteration
count. -/
theorem probedCands_of_le (target_vmaf : ℚ) (probe : Int → Option ℚ)
    (s : SearchState) :
    ∀ j k, j ≤ k → ∃ l, probedCands target_vmaf probe k s =
      probedCands target_vmaf probe j s ++ l := by
  intro j k
  induction k with
  | zero =>
      intro hjk
      have hj : j = 0 := by omega
      subst hj
      exact ⟨[], by simp⟩
  | succ n ih =>
      intro hjk
      rcases Nat.lt_or_ge j (n + 1) with hlt | hge
      · obtain ⟨l, hl⟩ := ih (by omega)
        rw [probedCands_succ]
        cases runStates target_vmaf probe n s with
        | some u =>
            exact ⟨l ++ [current_param u.low_param u.high_param], by rw [hl]; simp⟩
        | none => exact ⟨l, hl⟩
      · have hj : j = n + 1 := by omega
        subst hj
        exact ⟨[], by simp⟩

/-- Probing behaviour of `probeMeetsTarget` on the three probe outcomes. -/
theorem probeMeetsTarget_none (target_vmaf : ℚ) (probe : Int → Option ℚ)
    (c : Int) (hp : probe c = none) :
    probeMeetsTarget target_vmaf probe c = false := by
  unfold probeMeetsTarget
  rw [hp]

/-- A successful probe meeting the target registers as `true`. -/
theorem probeMeetsTarget_met (target_vmaf : ℚ) (probe : Int → Option ℚ)
    (c : Int) (score : ℚ) (hp : probe c = some score) (hge : score ≥ target_vmaf) :
    probeMeetsTarget target_vmaf probe c = true := by
  unfold probeMeetsTarget
  rw [hp]
  exact decide_eq_true hge

/-- A successful probe missing the target registers as `false`. -/
theorem probeMeetsTarget_missed (target_vmaf : ℚ) (probe : Int → Option ℚ)
    (c : Int) (score : ℚ) (hp : probe c = some score) (hlt : ¬ score ≥ target_vmaf) :
    probeMeetsTarget target_vmaf probe c = false := by
  unfold probeMeetsTarget
  rw [hp]
  exact decide_eq_false hlt

/-- Master invariant of the search trace on a nonempty initial domain: the
domain stays nonempty and inside the initial bounds, and `best_param` is
the sentinel `hi` until the first successful probe meeting the target,
after which it is that first successful candidate (which moreover sits
strictly below the current `low_param` and inside the initial domain). -/
theorem searchInv (target_vmaf : ℚ) (probe : Int → Option ℚ) (lo hi : Int)
    (hdom : lo ≤ hi) :
    ∀ k s, runStates target_vmaf probe k ⟨lo, hi, hi⟩ = some s →
      lo ≤ s.low_param ∧ s.low_param ≤ s.high_param ∧ s.high_param ≤ hi ∧
      (((probedCands target_vmaf probe k ⟨lo, hi, hi⟩).find?
          (probeMeetsTarget target_vmaf probe) = none ∧ s.best_param = hi) ∨
       (∃ c, (probedCands target_vmaf probe k ⟨lo, hi, hi⟩).find?
          (probeMeetsTarget target_vmaf probe) = some c ∧
          s.best_param = c ∧ c < s.low_param ∧ c ≤ hi)) := by
  intro k
  induction k with
  | zero =>
      intro s hs
      have hs' : (⟨lo, hi, hi⟩ : SearchState) = s := by
        simpa [runStates] using hs
      subst hs'
      exact ⟨le_rfl, hdom, le_rfl, Or.inl ⟨rfl, rfl⟩⟩
  | succ n ih =>
      intro s hs
      rw [runStates_succ target_vmaf probe] at hs
      cases hu : runStates target_vmaf probe n ⟨lo, hi, hi⟩ with
      | none =>
          rw [hu] at hs
          simp at hs
      | some u =>
          rw [hu] at hs
          simp only [] at hs
          obtain ⟨h1, h2, h3, h4⟩ := ih u hu
          have hc := current_param_bounds h2
          rw [probedCands_succ target_vmaf probe, hu]
          simp only [List.find?_append]
          cases hp : probe (current_param u.low_param u.high_param) with
          | none =>
              rw [stepSearch_absent target_vmaf probe u hp] at hs
              by_cases hcond : current_param u.low_param u.high_param + 1 > u.high_param
              · rw [if_pos hcond] at hs
                simp at hs
              · rw [if_neg hcond] at hs
                simp only [Option.some.injEq] at hs
                subst hs
                have hfc : [current_param u.low_param u.high_param].find?
                    (probeMeetsTarget target_vmaf probe) = none := by
                  simp [List.find?, probeMeetsTarget_none target_vmaf probe _ hp]
                refine ⟨show lo ≤ current_param u.low_param u.high_param + 1 by omega,
                  show current_param u.low_param u.high_param + 1 ≤ u.high_param by omega,
                  h3, ?_⟩
                rcases h4 with ⟨hfind, hbest⟩ | ⟨c₀, hfind, hbest, hcl, hch⟩
                · exact Or.inl ⟨by rw [hfind, hfc]; rfl, hbest⟩
                · exact Or.inr ⟨c₀, by rw [hfind]; rfl, hbest,
                    show c₀ < current_param u.low_param u.high_param + 1 by omega, hch⟩
          | some score =>
              by_cases hge : score ≥ target_vmaf
              · rw [stepSearch_met target_vmaf probe u score hp hge] at hs
                have hfc : [current_param u.low_param u.high_param].find?
                    (probeMeetsTarget target_vmaf probe) =
                    some (current_param u.low_param u.high_param) := by
                  simp [List.find?,
                    probeMeetsTarget_met target_vmaf probe _ score hp hge]
                by_cases hcond : current_param u.low_param u.high_param + 1 > u.high_param
                · rw [if_pos hcond] at hs
                  simp at hs
                · rw [if_neg hcond] at hs
                  simp only [Option.some.injEq] at hs
                  subst hs
                  refine ⟨show lo ≤ current_param u.low_param u.high_param + 1 by omega,
                    show current_param u.low_param u.high_param + 1 ≤ u.high_param by omega,
                    h3, Or.inr ?_⟩
                  rcases h4 with ⟨hfind, hbest⟩ | ⟨c₀, hfind, hbest, hcl, hch⟩
                  · refine ⟨current_param u.low_param u.high_param,
                      by rw [hfind, hfc]; rfl, ?_,
                      show current_param u.low_param u.high_param <
                        current_param u.low_param u.high_param + 1 by omega,
                      show current_param u.low_param u.high_param ≤ hi by omega⟩
                    show updated_best (current_param u.low_param u.high_param)
                        u.best_param u.high_param = current_param u.low_param u.high_param
                    unfold updated_best
                    split_ifs with hsp
                    · rfl
                    · omega
                  · refine ⟨c₀, by rw [hfind]; rfl, ?_,
                      show c₀ < current_param u.low_param u.high_param + 1 by omega, hch⟩
                    show updated_best (current_param u.low_param u.high_param)
                        u.best_param u.high_param = c₀
                    unfold updated_best
                    split_ifs with hsp
                    · omega
                    · exact hbest
              · rw [stepSearch_missed target_vmaf probe u score hp hge] at hs
                have hfc : [current_param u.low_param u.high_param].find?
                    (probeMeetsTarget target_vmaf probe) = none := by
                  simp [List.find?,
                    probeMeetsTarget_missed target_vmaf probe _ score hp hge]
                by_cases hcond : u.low_param > current_param u.low_param u.high_param - 1
                · rw [if_pos hcond] at hs
                  simp at hs
                · rw [if_neg hcond] at hs
                  simp only [Option.some.injEq] at hs
                  subst hs
                  refine ⟨h1,
                    show u.low_param ≤ current_param u.low_param u.high_param - 1 by omega,
                    show current_param u.low_param u.high_param - 1 ≤ hi by omega, ?_⟩
                  rcases h4 with ⟨hfind, hbest⟩ | ⟨c₀, hfind, hbest, hcl, hch⟩
                  · exact Or.inl ⟨by rw [hfind, hfc]; rfl, hbest⟩
                  · exact Or.inr ⟨c₀, by rw [hfind]; rfl, hbest, hcl, hch⟩

/-- C10: along any search on a nonempty initial domain, `best_param` never
increases (the state after more iterations never has a larger best), and
after `k` iterations it equals the first probed candidate whose score met
the target, or the sentinel `hi` when no probe has met the target yet. -/
theorem claim_c10_best_param (target_vmaf : ℚ) (probe : Int → Option ℚ)
    (lo hi : Int) (hdom : lo ≤ hi) (j k : Nat) (hjk : j ≤ k)
    (s t : SearchState)
    (hsk : runStates target_vmaf probe k ⟨lo, hi, hi⟩ = some s)
    (htj : runStates target_vmaf probe j ⟨lo, hi, hi⟩ = some t) :
    s.best_param ≤ t.best_param ∧
    s.best_param = ((probedCands target_vmaf probe k ⟨lo, hi, hi⟩).find?
      (probeMeetsTarget target_vmaf probe)).getD hi := by
  obtain ⟨_, _, _, h4k⟩ := searchInv target_vmaf probe lo hi hdom k s hsk
  obtain ⟨_, _, _, h4j⟩ := searchInv target_vmaf probe lo hi hdom j t htj
  obtain ⟨l, hl⟩ := probedCands_of_le target_vmaf probe ⟨lo, hi, hi⟩ j k hjk
  rcases h4j with ⟨hfj, hbj⟩ | ⟨c₀, hfj, hbj, hclj, hchj⟩
  · rcases h4k with ⟨hfk, hbk⟩ | ⟨c, hfk, hbk, hcl, hch⟩
    · rw [hfk]
      exact ⟨by omega, by rw [hbk]; rfl⟩
    · rw [hfk]
      exact ⟨by omega, by rw [hbk]; rfl⟩
  · have hfk : (probedCands target_vmaf probe k ⟨lo, hi, hi⟩).find?
        (probeMeetsTarget target_vmaf probe) = some c₀ := by
      rw [hl, List.find?_append, hfj]
      simp
    rcases h4k with ⟨hfk2, hbk⟩ | ⟨c, hfk2, hbk, hcl, hch⟩
    · rw [hfk] at hfk2
      cases hfk2
    · rw [hfk] at hfk2
      obtain rfl : c₀ = c := Option.some.inj hfk2
      rw [hfk]
      exact ⟨by omega, by rw [hbk]; rfl⟩

/- Frame-filename formatting, find_crf.py lines 314-325. -/

/-- Character-level effect of the Python `.replace(".", "_")` call. -/
def dotmapChar (c : Char) : Char :=
  if c = '.' then '_' else c

/-- Python `str.replace` with a single-character pattern maps every
occurrence of that character, here the decimal point to an underscore. -/
def replaceDot (s : String) : String :=
  String.mk (s.data.map dotmapChar)

/-- Rounding of a rational to the nearest integer, ties to even, as Python
float formatting rounds. -/
def roundHalfEven (q : ℚ) : Int :=
  if q - ⌊q⌋ < 1 / 2 then ⌊q⌋
  else if 1 / 2 < q - ⌊q⌋ then ⌊q⌋ + 1
  else if ⌊q⌋ % 2 = 0 then ⌊q⌋ else ⌊q⌋ + 1

/-- Two-digit zero-padded rendering of the fractional part. -/
def pad2 (n : Nat) : String :=
  if n < 10 then "0" ++ Nat.repr n else Nat.repr n

/-- Model of the Python format specifier `:.2f` on rationals: the value
rounded to two decimal places and rendered with a decimal point. -/
def format2f (q : ℚ) : String :=
  (if q < 0 then "-" else "") ++
    Nat.repr ((roundHalfEven (q * 100)).natAbs / 100) ++ "." ++
    pad2 ((roundHalfEven (q * 100)).natAbs % 100)

/-- The same two-decimal rendering with the decimal point replaced by an
underscore, as it appears inside the frame filenames. -/
def rendered2u (q : ℚ) : String :=
  (if q < 0 then "-" else "") ++
    Nat.repr ((roundHalfEven (q * 100)).natAbs / 100) ++ "_" ++
    pad2 ((roundHalfEven (q * 100)).natAbs % 100)

/-- Filename fragment of find_crf.py line 316. -/
def filename_vmaf (vmaf_score : ℚ) : String :=
  replaceDot ("VMAF" ++ format2f vmaf_score)

/-- Filename fragment of find_crf.py line 317. -/
def filename_bitrate (bitrate_mbps : ℚ) : String :=
  replaceDot ("Bitrate" ++ format2f bitrate_mbps ++ "Mbps")

/-- Filename fragment of find_crf.py lines 319-322, depending on whether a
percent-of-original value is available. -/
def filename_size_info (est_mb : ℚ) : Option ℚ → String
  | some pct => replaceDot ("Size" ++ format2f est_mb ++ "MB_"
      ++ format2f pct ++ "Percent")
  | none => replaceDot ("Size" ++ format2f est_mb ++ "MB")

/-- Full frame filename of find_crf.py line 324. -/
def frame_filename (vmaf_score bitrate_mbps est_mb : ℚ) (pct : Option ℚ) : String :=
  filename_vmaf vmaf_score ++ "_" ++ filename_bitrate bitrate_mbps ++ "_" ++
    filename_size_info est_mb pct ++ ".png"

/-- Decimal digit characters are never a dot. -/
theorem digitChar_ne_dot (n : Nat) : Nat.digitChar n ≠ '.' := by
  rcases Nat.lt_or_ge n 16 with h | h
  · interval_cases n <;> decide
  · have hne : ∀ m : Nat, m < 16 → n ≠ m := fun m hm => by omega
    simp [Nat.digitChar, hne]

/-- The digit accumulator of `Nat.toDigitsCore` never introduces a dot. -/
theorem toDigitsCore_no_dot :
    ∀ (fuel n : Nat) (ds : List Char), ('.' : Char) ∉ ds →
      ('.' : Char) ∉ Nat.toDigitsCore 10 fuel n ds := by
  intro fuel
  induction fuel with
  | zero =>
      intro n ds h
      simpa [Nat.toDigitsCore] using h
  | succ m ih =>
      intro n ds h
      have hcons : ('.' : Char) ∉ Nat.digitChar (n % 10) :: ds := by
        intro hmem
        rcases List.mem_cons.mp hmem with h1 | h1
        · exact digitChar_ne_dot (n % 10) h1.symm
        · exact h h1
      simp only [Nat.toDigitsCore]
      split
      · exact hcons
      · exact ih (n / 10) _ hcons

/-- Decimal renderings of naturals contain no dot. -/
theorem repr_no_dot (n : Nat) : ('.' : Char) ∉ (Nat.repr n).data := by
  show ('.' : Char) ∉ (Nat.toDigits 10 n).asString.data
  have hdata : (Nat.toDigits 10 n).asString.data = Nat.toDigits 10 n := rfl
  rw [hdata]
  unfold Nat.toDigits
  exact toDigitsCore_no_dot (n + 1) n [] (by simp)

/-- The two-digit padding contains no dot. -/
theorem pad2_no_dot (n : Nat) : ('.' : Char) ∉ (pad2 n).data := by
  unfold pad2
  split_ifs
  · rw [String.data_append]
    intro hmem
    rcases List.mem_append.mp hmem with h1 | h1
    · exact absurd h1 (by decide)
    · exact repr_no_dot n h1
  · exact repr_no_dot n

/-- Mapping the dot substitution over a dot-free character list is the
identity. -/
theorem map_dotmap_eq_self :
    ∀ l : List Char, ('.' : Char) ∉ l → l.map dotmapChar = l := by
  intro l
  induction l with
  | nil => intro _; rfl
  | cons a t ih =>
      intro h
      have ha : a ≠ '.' := by
        intro hh
        exact h (by simp [hh])
      have ht : ('.' : Char) ∉ t := fun hh => h (List.mem_cons_of_mem _ hh)
      simp [dotmapChar, ha, ih ht]

/-- Replacing dots in a dot-free string is the identity. -/
theorem replaceDot_eq_self (s : String) (h : ('.' : Char) ∉ s.data) :
    replaceDot s = s := by
  unfold replaceDot
  rw [map_dotmap_eq_self s.data h]

/-- Dot replacement distributes over string append. -/
theorem replaceDot_append (a b : String) :
    replaceDot (a ++ b) = replaceDot a ++ replaceDot b := by
  unfold replaceDot
  rw [String.data_append, List.map_append]
  rfl

/-- Dot replacement turns the two-decimal rendering into the underscore
rendering. -/
theorem replaceDot_format2f (q : ℚ) :
    replaceDot (format2f q) = rendered2u q := by
  unfold format2f rendered2u
  rw [replaceDot_append, replaceDot_append, replaceDot_append]
  rw [replaceDot_eq_self _ (repr_no_dot _), replaceDot_eq_self _ (pad2_no_dot _)]
  have hsign : replaceDot (if q < 0 then "-" else "") =
      (if q < 0 then "-" else "") := by
    split_ifs <;> decide
  have hdot : replaceDot "." = "_" := by decide
  rw [hsign, hdot]

/-- C9: with frame-saving enabled and a percent-of-original available, the
frame filename is exactly the concatenation embedding the score, the
bitrate in Mbps, the estimated full-video size in MB and the
percent-of-original, each rendered rounded to two decimals with the
decimal point replaced by an underscore. -/
theorem claim_c9_frame_filename (v b e p : ℚ) :
    frame_filename v b e (some p) =
      "VMAF" ++ rendered2u v ++ "_" ++ "Bitrate" ++ rendered2u b ++ "Mbps" ++
        "_" ++ "Size" ++ rendered2u e ++ "MB_" ++ rendered2u p ++ "Percent"
        ++ ".png" := by
  have hV : replaceDot "VMAF" = "VMAF" := by decide
  have hB : replaceDot "Bitrate" = "Bitrate" := by decide
  have hM : replaceDot "Mbps" = "Mbps" := by decide
  have hS : replaceDot "Size" = "Size" := by decide
  have hMB : replaceDot "MB_" = "MB_" := by decide
  have hP : replaceDot "Percent" = "Percent" := by decide
  unfold frame_filename filename_vmaf filename_bitrate filename_size_info
  simp only [replaceDot_append, replaceDot_format2f, hV, hB, hM, hS, hMB, hP,
    String.append_assoc]

/-- C10 witness: two iterations of an all-failing probe on `[0, 3]`. -/
theorem claim_c10_witness :
    (⟨2, 3, 3⟩ : SearchState).best_param ≤ (⟨0, 3, 3⟩ : SearchState).best_param ∧
    (⟨2, 3, 3⟩ : SearchState).best_param =
      ((probedCands 95 (fun _ => none) 1 ⟨0, 3, 3⟩).find?
        (probeMeetsTarget 95 (fun _ => none))).getD 3 :=
  claim_c10_best_param 95 (fun _ => none) 0 3 (by decide) 0 1 (by decide)
    ⟨2, 3, 3⟩ ⟨0, 3, 3⟩ (by decide) (by decide)

end FindCrf
